import Mathlib

/-!
# SwissDraw - verification of the eligibility and pairing engine

Shallow embedding of the SwissDraw tournament-pairing code
(`src/lib/matches.ts`, `src/lib/opponents.ts`, `src/lib/students.ts`,
`src/lib/matchRecommendations.ts`, `src/lib/leaderboard.ts`).

Modelling conventions:
* The Svelte store `matchHistory` and the fetched student roster are passed
  explicitly as `List Match` / `List Student` arguments; every embedded
  function reads the same snapshot, matching the spec's consistent-snapshot
  assumption.
* JavaScript numbers holding scores are `Int`; timestamps (`Date`) are `Int`
  epoch milliseconds; exact fractional results (`winRate`,
  `averageScoreDifference`) are `Rat` instead of IEEE floats.
* `Array.prototype.sort(cmp)` (stable since ES2019) is embedded as a stable
  insertion sort `sortLe le` with `le a b ↔ cmp a b ≤ 0`.
* `String.prototype.localeCompare` is embedded as plain lexicographic
  comparison of the character lists (`nameLe`).
* The Fisher-Yates shuffle draws on `Math.random`; its outcome is passed in
  explicitly as the `shuffled` visitation order, so theorems quantify over
  every possible shuffle result.
-/

namespace SwissDraw

/-- Embedding of `Student` from `src/lib/students.ts`: `{id, name, score}`. -/
structure Student where
  id : String
  name : String
  score : Int
deriving DecidableEq, Repr

/-- Embedding of `Match` from `src/lib/matches.ts`:
`{id, playerA, playerB, winner, loser, date}` (date as epoch millis). -/
structure Match where
  id : String
  playerA : String
  playerB : String
  winner : String
  loser : String
  date : Int
deriving DecidableEq, Repr

/-- Embedding of `getMatchesBetweenStudents` from `src/lib/matches.ts`: all records whose
`{playerA, playerB}` equals `{studentA, studentB}` in either orientation.
`canPlay` inlines exactly this filter in the source. -/
def getMatchesBetweenStudents (studentA studentB : String)
    (history : List Match) : List Match :=
  history.filter fun m =>
    (m.playerA == studentA && m.playerB == studentB) ||
    (m.playerA == studentB && m.playerB == studentA)

/-- Embedding of `canPlay` from `src/lib/matches.ts`: fewer than 3 prior head-to-head
records is eligible; exactly 3 is eligible only when one side has exactly 2
wins among them; more than 3 is ineligible. The source reads the
`matchHistory` store; here the history is the explicit `history` argument. -/
def canPlay (studentA studentB : String) (history : List Match) : Bool :=
  let matchesBetweenPlayers := getMatchesBetweenStudents studentA studentB history
  if matchesBetweenPlayers.length < 3 then
    true
  else if matchesBetweenPlayers.length == 3 then
    let studentAWins := (matchesBetweenPlayers.filter fun m => m.winner == studentA).length
    let studentBWins := (matchesBetweenPlayers.filter fun m => m.winner == studentB).length
    studentAWins == 2 || studentBWins == 2
  else
    false

/-- Embedding of `getHeadToHead` from `src/lib/opponents.ts`: delegates to
`getMatchesBetweenStudents` (the source re-wraps each record in an identical
`MatchResult` shape, which is the same structure here). -/
def getHeadToHead (studentA studentB : String) (history : List Match) : List Match :=
  getMatchesBetweenStudents studentA studentB history

/-- Embedding of `canHaveBestOfThreeRematch` from `src/lib/opponents.ts`. -/
def canHaveBestOfThreeRematch (studentA studentB : String)
    (history : List Match) : Bool :=
  let headToHead := getHeadToHead studentA studentB history
  if headToHead.length != 3 then
    false
  else
    let studentAWins := (headToHead.filter fun m => m.winner == studentA).length
    let studentBWins := (headToHead.filter fun m => m.winner == studentB).length
    studentAWins == 2 || studentBWins == 2

/-- Embedding of `isScoreWithinMargin` from `src/lib/opponents.ts`:
`Math.abs(scoreA - scoreB) <= margin`. -/
def isScoreWithinMargin (scoreA scoreB margin : Int) : Bool :=
  decide (|scoreA - scoreB| ≤ margin)

/-- The filter closure inside `getEligibleOpponents` (`src/lib/opponents.ts`):
exclude self, enforce the margin, and require `canPlay` (with the dead
best-of-three fallback the source spells out). -/
def eligiblePred (studentId : String) (margin : Int) (targetStudent : Student)
    (history : List Match) (opponent : Student) : Bool :=
  if opponent.id == studentId then
    false
  else if !(isScoreWithinMargin targetStudent.score opponent.score margin) then
    false
  else if !(canPlay studentId opponent.id history) then
    if (getHeadToHead studentId opponent.id history).length == 3 then
      canHaveBestOfThreeRematch studentId opponent.id history
    else
      false
  else
    true

/-- Embedding of `getEligibleOpponents` from `src/lib/opponents.ts`. The source fetches the
roster via `getStudents()` and the history via the store; both are explicit
arguments here. Returns `[]` when the target id is absent. -/
def getEligibleOpponents (studentId : String) (margin : Int)
    (students : List Student) (history : List Match) : List Student :=
  match students.find? (fun s => s.id == studentId) with
  | none => []
  | some targetStudent =>
    students.filter (eligiblePred studentId margin targetStudent history)

/-! ## Stable sorting (embedding of `Array.prototype.sort`)

JavaScript's `sort(cmp)` with a consistent comparator is a stable sort for
the total preorder `le a b ↔ cmp a b ≤ 0`.  `sortLe` below is a stable
insertion sort for a `Bool`-valued `le`: elements are taken left to right and
each is inserted after every already-placed element `y` with `le y x`. -/

/-- Insert `x` after the longest prefix of elements `y` with `le y x`. -/
def insertLe (le : α → α → Bool) (x : α) : List α → List α
  | [] => [x]
  | y :: ys => if le y x then y :: insertLe le x ys else x :: y :: ys

/-- Stable sort w.r.t. a total preorder given as a `Bool`-valued `le`. -/
def sortLe (le : α → α → Bool) (l : List α) : List α :=
  l.foldl (fun acc x => insertLe le x acc) []

/-- Embedding of `a.localeCompare(b) ≤ 0`: `localeCompare` is modelled as plain
lexicographic comparison of the character lists. -/
def nameLe (a b : String) : Bool := decide (a.data ≤ b.data)

/-! ## Opponent details (`src/lib/opponents.ts`) -/

/-- Element shape returned by `getEligibleOpponentsWithDetails`. -/
structure OpponentDetails where
  student : Student
  matchCount : Nat
  lastPlayed : Option Int
  scoreDifference : Int
deriving DecidableEq, Repr

/-- The comparator of `getEligibleOpponentsWithDetails` as a `Bool` `le`:
`(a, b) => a.scoreDifference - b.scoreDifference` when the differences differ,
otherwise `a.matchCount - b.matchCount` (ties compare equal, so the stable
sort keeps them in filter order). -/
def detailsLe (a b : OpponentDetails) : Bool :=
  if a.scoreDifference = b.scoreDifference then
    decide (a.matchCount ≤ b.matchCount)
  else
    decide (a.scoreDifference ≤ b.scoreDifference)

/-- Comparator of the `lastMatch` lookup: `(a, b) => b.date - a.date`
(descending date). -/
def dateDescLe (a b : Match) : Bool := decide (b.date ≤ a.date)

/-- Embedding of `getEligibleOpponentsWithDetails` from `src/lib/opponents.ts`. -/
def getEligibleOpponentsWithDetails (studentId : String) (margin : Int)
    (students : List Student) (history : List Match) : List OpponentDetails :=
  match students.find? (fun s => s.id == studentId) with
  | none => []
  | some targetStudent =>
    let eligibleOpponents := getEligibleOpponents studentId margin students history
    let details := eligibleOpponents.map fun opponent =>
      let headToHead := getHeadToHead studentId opponent.id history
      let lastMatch := (sortLe dateDescLe headToHead).head?
      { student := opponent
        matchCount := headToHead.length
        lastPlayed := lastMatch.map (fun m => m.date)
        scoreDifference := |targetStudent.score - opponent.score| }
    sortLe detailsLe details

/-- Embedding of `getBestOpponentRecommendation` from `src/lib/opponents.ts`: first element
of the detailed ordering, or `none` when it is empty. -/
def getBestOpponentRecommendation (studentId : String) (margin : Int)
    (students : List Student) (history : List Match) : Option Student :=
  match getEligibleOpponentsWithDetails studentId margin students history with
  | [] => none
  | d :: _ => some d.student

/-! ## Pairing generator (`src/lib/matchRecommendations.ts`) -/

/-- Embedding of `MatchRecommendation` record: `{playerA, playerB, scoreDifference}`. -/
structure MatchRecommendation where
  playerA : Student
  playerB : Student
  scoreDifference : Int
deriving DecidableEq, Repr

/-- Opponent selection of `getMatchRecommendations`: sort the available
opponents by `|student.score - opponent.score|` (comparator returns 0 on
ties) and take index 0. -/
def pickSorted (student : Student) (availableOpponents : List Student) : Option Student :=
  (sortLe (fun a b =>
    decide (|student.score - a.score| ≤ |student.score - b.score|)) availableOpponents).head?

/-- Opponent selection of `getOptimizedMatchRecommendations`:
`reduce((best, current) => currentDiff < bestDiff ? current : best)`. -/
def pickMin (student : Student) (availableOpponents : List Student) : Option Student :=
  match availableOpponents with
  | [] => none
  | first :: rest =>
    some (rest.foldl (fun best current =>
      if |student.score - current.score| < |student.score - best.score| then current
      else best) first)

/-- The shared greedy loop of both recommendation functions: visit `order`,
skip used students, restrict the eligible opponents to unused ones, select an
opponent via `pick`, re-validate with `canPlay`, emit and mark both used. -/
def recommendLoop (pick : Student → List Student → Option Student)
    (students : List Student) (margin : Int) (history : List Match) :
    List Student → List String → List MatchRecommendation
  | [], _ => []
  | student :: rest, usedStudents =>
    if usedStudents.contains student.id then
      recommendLoop pick students margin history rest usedStudents
    else
      let eligibleOpponents := getEligibleOpponents student.id margin students history
      let availableOpponents := eligibleOpponents.filter fun opponent =>
        !(usedStudents.contains opponent.id)
      match pick student availableOpponents with
      | none => recommendLoop pick students margin history rest usedStudents
      | some bestOpponent =>
        if canPlay student.id bestOpponent.id history then
          { playerA := student
            playerB := bestOpponent
            scoreDifference := |student.score - bestOpponent.score| } ::
          recommendLoop pick students margin history rest
            (student.id :: bestOpponent.id :: usedStudents)
        else
          recommendLoop pick students margin history rest usedStudents

/-- Embedding of `getMatchRecommendations` from `src/lib/matchRecommendations.ts`.
`shuffled` is the outcome of `shuffleArray(students)` (the Fisher-Yates
shuffle driven by `Math.random`), passed explicitly. -/
def getMatchRecommendations (students : List Student) (margin : Int)
    (history : List Match) (shuffled : List Student) : List MatchRecommendation :=
  if students.length < 2 then []
  else recommendLoop pickSorted students margin history shuffled []

/-- Comparator of `getOptimizedMatchRecommendations`'s pre-sort:
`(a, b) => b.score - a.score` (descending score). -/
def scoreDescLe (a b : Student) : Bool := decide (b.score ≤ a.score)

/-- Embedding of `getOptimizedMatchRecommendations` from `src/lib/matchRecommendations.ts`:
deterministic variant visiting students in descending-score order. -/
def getOptimizedMatchRecommendations (students : List Student) (margin : Int)
    (history : List Match) : List MatchRecommendation :=
  if students.length < 2 then []
  else recommendLoop pickMin students margin history (sortLe scoreDescLe students) []

/-- The competitor ids mentioned by a list of recommendations, in order. -/
def recIds : List MatchRecommendation → List String
  | [] => []
  | p :: ps => p.playerA.id :: p.playerB.id :: recIds ps

/-! ## Recommendation statistics (`src/lib/matchRecommendations.ts`) -/

/-- Result shape of `getMatchRecommendationStats`. -/
structure RecommendationStats where
  totalStudents : Nat
  studentsWithOpponents : Nat
  possibleMatches : Nat
  averageScoreDifference : Rat
deriving DecidableEq, Repr

/-- Accumulator of the `getMatchRecommendationStats` loop: the four `let`
counters of the source. -/
structure StatsAcc where
  studentsWithOpponents : Nat
  totalPossibleMatches : Nat
  totalScoreDifference : Int
  matchCount : Nat
deriving DecidableEq, Repr

/-- One iteration of the `for (const student of students)` loop of
`getMatchRecommendationStats`. -/
def statsStep (margin : Int) (students : List Student) (history : List Match)
    (acc : StatsAcc) (student : Student) : StatsAcc :=
  let eligibleOpponents := getEligibleOpponents student.id margin students history
  if eligibleOpponents.length > 0 then
    { studentsWithOpponents := acc.studentsWithOpponents + 1
      totalPossibleMatches := acc.totalPossibleMatches + eligibleOpponents.length
      totalScoreDifference := acc.totalScoreDifference +
        (eligibleOpponents.foldl (fun t opponent =>
          t + |student.score - opponent.score|) 0)
      matchCount := acc.matchCount + eligibleOpponents.length }
  else
    acc

/-- Embedding of `getMatchRecommendationStats` from `src/lib/matchRecommendations.ts`.
The float division `totalScoreDifference / matchCount` is exact rational
division here. -/
def getMatchRecommendationStats (students : List Student) (margin : Int)
    (history : List Match) : RecommendationStats :=
  if students.length < 2 then
    { totalStudents := students.length
      studentsWithOpponents := 0
      possibleMatches := 0
      averageScoreDifference := 0 }
  else
    let acc := students.foldl (statsStep margin students history) ⟨0, 0, 0, 0⟩
    { totalStudents := students.length
      studentsWithOpponents := acc.studentsWithOpponents
      possibleMatches := acc.totalPossibleMatches
      averageScoreDifference :=
        if acc.matchCount > 0 then
          (acc.totalScoreDifference : Rat) / (acc.matchCount : Rat)
        else 0 }

/-! ## Leaderboard (`src/lib/leaderboard.ts`) -/

/-- Embedding of `StudentStats` record of `calculateStudentStats`. -/
structure StudentStats where
  wins : Nat
  losses : Nat
  totalMatches : Nat
  winRate : Rat
deriving DecidableEq, Repr

/-- Embedding of `calculateStudentStats` from `src/lib/leaderboard.ts`: scan the history,
counting a win when the student is listed and is the winner, a loss when the
student is listed and is not the winner. -/
def calculateStudentStats (studentId : String) (history : List Match) : StudentStats :=
  let counts := history.foldl (fun (c : Nat × Nat) m =>
    if m.playerA == studentId || m.playerB == studentId then
      if m.winner == studentId then (c.1 + 1, c.2) else (c.1, c.2 + 1)
    else c) (0, 0)
  let totalMatches := counts.1 + counts.2
  { wins := counts.1
    losses := counts.2
    totalMatches := totalMatches
    winRate := if totalMatches > 0 then ((counts.1 : Rat) / (totalMatches : Rat)) * 100 else 0 }

/-- Embedding of `LeaderboardEntry` record. -/
structure LeaderboardEntry where
  student : Student
  wins : Nat
  losses : Nat
  totalMatches : Nat
  winRate : Rat
deriving DecidableEq, Repr

/-- The entry built for one student inside `getLeaderboard`. -/
def leaderboardEntryOf (history : List Match) (student : Student) : LeaderboardEntry :=
  let stats := calculateStudentStats student.id history
  { student := student
    wins := stats.wins
    losses := stats.losses
    totalMatches := stats.totalMatches
    winRate := stats.winRate }

/-- The `getLeaderboard` comparator as a `Bool` `le`: descending score, then
descending win rate, then descending total matches, then ascending name
(`localeCompare`). -/
def leaderboardLe (a b : LeaderboardEntry) : Bool :=
  if a.student.score = b.student.score then
    if a.winRate = b.winRate then
      if a.totalMatches = b.totalMatches then
        nameLe a.student.name b.student.name
      else
        decide (b.totalMatches ≤ a.totalMatches)
    else
      decide (b.winRate ≤ a.winRate)
  else
    decide (b.student.score ≤ a.student.score)

/-- Embedding of `getLeaderboard` from `src/lib/leaderboard.ts`. -/
def getLeaderboard (students : List Student) (history : List Match) :
    List LeaderboardEntry :=
  sortLe leaderboardLe (students.map (leaderboardEntryOf history))

/-! ## Helper lemmas: the stable sort -/

/-- A `Bool` `le` relation that is total. -/
def LeTotal (le : α → α → Bool) : Prop := ∀ a b, le a b = true ∨ le b a = true

/-- A `Bool` `le` relation that is transitive. -/
def LeTrans (le : α → α → Bool) : Prop :=
  ∀ a b c, le a b = true → le b c = true → le a c = true

theorem insertLe_perm (le : α → α → Bool) (x : α) (l : List α) :
    (insertLe le x l).Perm (x :: l) := by
  induction l with
  | nil => exact List.Perm.refl _
  | cons y ys ih =>
    simp only [insertLe]
    split
    · exact (ih.cons y).trans (List.Perm.swap x y ys)
    · exact List.Perm.refl _

theorem sortLe_perm (le : α → α → Bool) (l : List α) : (sortLe le l).Perm l := by
  suffices h : ∀ (l acc : List α),
      (l.foldl (fun acc x => insertLe le x acc) acc).Perm (acc ++ l) by
    simpa using h l []
  intro l
  induction l with
  | nil => intro acc; simp
  | cons x xs ih =>
    intro acc
    have h1 := ih (insertLe le x acc)
    have h2 := (insertLe_perm le x acc).append_right xs
    exact h1.trans (h2.trans List.perm_middle.symm)

theorem mem_sortLe {le : α → α → Bool} {x : α} {l : List α} :
    x ∈ sortLe le l ↔ x ∈ l := (sortLe_perm le l).mem_iff

theorem pairwise_insertLe {le : α → α → Bool} (htr : LeTrans le) (hto : LeTotal le)
    (x : α) {l : List α} (hl : l.Pairwise fun a b => le a b = true) :
    (insertLe le x l).Pairwise (fun a b => le a b = true) := by
  induction l with
  | nil => simp [insertLe]
  | cons y ys ih =>
    rcases List.pairwise_cons.mp hl with ⟨hy, hys⟩
    simp only [insertLe]
    split
    · next h =>
      refine List.pairwise_cons.mpr ⟨?_, ih hys⟩
      intro z hz
      rcases List.mem_cons.mp ((insertLe_perm le x ys).mem_iff.mp hz) with hzx | hzy
      · exact hzx ▸ h
      · exact hy z hzy
    · next h =>
      have hxy : le x y = true := (hto x y).resolve_right (by simpa using h)
      refine List.pairwise_cons.mpr ⟨?_, hl⟩
      intro z hz
      rcases List.mem_cons.mp hz with hzy | hzys
      · exact hzy ▸ hxy
      · exact htr x y z hxy (hy z hzys)

theorem pairwise_sortLe {le : α → α → Bool} (htr : LeTrans le) (hto : LeTotal le)
    (l : List α) : (sortLe le l).Pairwise (fun a b => le a b = true) := by
  suffices h : ∀ (l acc : List α), acc.Pairwise (fun a b => le a b = true) →
      (l.foldl (fun acc x => insertLe le x acc) acc).Pairwise
        (fun a b => le a b = true) by
    exact h l [] (List.Pairwise.nil)
  intro l
  induction l with
  | nil => intro acc hacc; simpa using hacc
  | cons x xs ih =>
    intro acc hacc
    exact ih (insertLe le x acc) (pairwise_insertLe htr hto x hacc)

/-! ## Helper lemmas: symmetry of the eligibility primitives -/

theorem getMatchesBetweenStudents_comm (a b : String) (history : List Match) :
    getMatchesBetweenStudents a b history = getMatchesBetweenStudents b a history := by
  unfold getMatchesBetweenStudents
  exact List.filter_congr fun m _ => by rw [Bool.or_comm]

theorem canPlay_comm (a b : String) (history : List Match) :
    canPlay a b history = canPlay b a history := by
  unfold canPlay
  rw [getMatchesBetweenStudents_comm]
  by_cases h1 : (getMatchesBetweenStudents b a history).length < 3
  · simp [h1]
  · by_cases h2 : (getMatchesBetweenStudents b a history).length = 3
    · simp [h1, h2, Bool.or_comm]
    · simp [h1, h2]

theorem getHeadToHead_comm (a b : String) (history : List Match) :
    getHeadToHead a b history = getHeadToHead b a history :=
  getMatchesBetweenStudents_comm a b history

theorem canHaveBestOfThreeRematch_comm (a b : String) (history : List Match) :
    canHaveBestOfThreeRematch a b history = canHaveBestOfThreeRematch b a history := by
  unfold canHaveBestOfThreeRematch
  rw [getHeadToHead_comm]
  by_cases h1 : (getHeadToHead b a history).length = 3
  · simp [h1, Bool.or_comm]
  · simp [h1]

/-! ## Helper lemmas: eligible opponents -/

theorem eligiblePred_ne_self {studentId : String} {margin : Int}
    {targetStudent opponent : Student} {history : List Match}
    (h : eligiblePred studentId margin targetStudent history opponent = true) :
    opponent.id ≠ studentId := by
  intro he
  simp [eligiblePred, he] at h

theorem eligiblePred_margin {studentId : String} {margin : Int}
    {targetStudent opponent : Student} {history : List Match}
    (h : eligiblePred studentId margin targetStudent history opponent = true) :
    |targetStudent.score - opponent.score| ≤ margin := by
  by_cases h1 : opponent.id == studentId
  · simp [eligiblePred, h1] at h
  · by_cases h2 : isScoreWithinMargin targetStudent.score opponent.score margin
    · exact of_decide_eq_true h2
    · simp [eligiblePred, h1, h2] at h

/-- Membership in `getEligibleOpponents`, unfolded. -/
theorem mem_getEligibleOpponents {opponent : Student} {studentId : String}
    {margin : Int} {students : List Student} {history : List Match} :
    opponent ∈ getEligibleOpponents studentId margin students history ↔
      ∃ targetStudent, students.find? (fun s => s.id == studentId) = some targetStudent ∧
        opponent ∈ students ∧
        eligiblePred studentId margin targetStudent history opponent = true := by
  unfold getEligibleOpponents
  cases hfind : students.find? (fun s => s.id == studentId) with
  | none => simp
  | some t => simp [List.mem_filter, and_assoc]

theorem getEligibleOpponents_ne_self {opponent : Student} {studentId : String}
    {margin : Int} {students : List Student} {history : List Match}
    (h : opponent ∈ getEligibleOpponents studentId margin students history) :
    opponent.id ≠ studentId := by
  rcases mem_getEligibleOpponents.mp h with ⟨t, _, _, hpred⟩
  exact eligiblePred_ne_self hpred

/-- With duplicate-free ids, `find?` by a member's id returns that member. -/
theorem find?_eq_of_nodup {students : List Student} {s : Student}
    (hnodup : (students.map Student.id).Nodup) (hmem : s ∈ students) :
    students.find? (fun t => t.id == s.id) = some s := by
  induction students with
  | nil => cases hmem
  | cons a as ih =>
    rcases List.mem_cons.mp hmem with rfl | hmem'
    · simp [List.find?]
    · have hnd : a.id ∉ as.map Student.id ∧ (as.map Student.id).Nodup := by
        rw [List.map_cons, List.nodup_cons] at hnodup
        exact hnodup
      have hne : (a.id == s.id) = false := by
        apply beq_eq_false_iff_ne.mpr
        intro he
        exact hnd.1 (he ▸ List.mem_map_of_mem Student.id hmem')
      rw [List.find?_cons_of_neg _ (by simp [hne]), ih hnd.2 hmem']

/-! ## Claim C1 -/

/-- C1: for distinct competitors `a`, `b` and any history, `canPlay` is true
when fewer than 3 records exist between them; with exactly 3 records it is
true iff one of the two won exactly 2 of them; with more than 3 it is false. -/
theorem canPlay_thresholds (a b : String) (history : List Match) (_hab : a ≠ b) :
    ((getMatchesBetweenStudents a b history).length < 3 → canPlay a b history = true) ∧
    ((getMatchesBetweenStudents a b history).length = 3 →
      (canPlay a b history = true ↔
        (((getMatchesBetweenStudents a b history).filter
            (fun m => m.winner == a)).length = 2 ∨
         ((getMatchesBetweenStudents a b history).filter
            (fun m => m.winner == b)).length = 2))) ∧
    (3 < (getMatchesBetweenStudents a b history).length → canPlay a b history = false) := by
  refine ⟨fun h => ?_, fun h => ?_, fun h => ?_⟩
  · simp [canPlay, h]
  · simp [canPlay, h]
  · have h1 : ¬ (getMatchesBetweenStudents a b history).length < 3 := by omega
    have h2 : (getMatchesBetweenStudents a b history).length ≠ 3 := by omega
    simp [canPlay, h1, h2]

/-- Witness for C1 at a concrete input (empty head-to-head history). -/
theorem canPlay_thresholds_witness :
    (("a" : String) ≠ "b") ∧ canPlay "a" "b" [] = true :=
  ⟨by decide, (canPlay_thresholds "a" "b" [] (by decide)).1 (by decide)⟩

/-! ## Claim C4 -/

/-- C4 counterexample: the claim says `canPlay(a, a, H)` is always false, yet
with an empty history `canPlay` returns true for a self-pairing — `canPlay`
contains no self check at all. -/
theorem canPlay_self_counterexample : canPlay "a" "a" [] = true := by decide

/-- C4 amended: self-pairing is not rejected by `canPlay`; it is excluded in
the opponent finder, whose self check (`opponent.id === studentId`) is the
first condition of the filter, before the margin and history checks, so a
competitor never appears among its own eligible opponents. -/
theorem selfPairing_excluded_in_opponent_finder (studentId : String) (margin : Int)
    (students : List Student) (history : List Match) (opponent : Student)
    (h : opponent ∈ getEligibleOpponents studentId margin students history) :
    opponent.id ≠ studentId :=
  getEligibleOpponents_ne_self h

/-- Witness for the amended C4: a concrete pool where the eligible-opponent
list is non-empty. -/
theorem selfPairing_excluded_witness :
    (⟨"b", "b", 0⟩ : Student) ∈
        getEligibleOpponents "a" 1 [⟨"a", "a", 0⟩, ⟨"b", "b", 0⟩] [] ∧
    (⟨"b", "b", 0⟩ : Student).id ≠ "a" :=
  ⟨by decide,
    selfPairing_excluded_in_opponent_finder "a" 1 [⟨"a", "a", 0⟩, ⟨"b", "b", 0⟩] []
      ⟨"b", "b", 0⟩ (by decide)⟩

/-! ## Claim C6 -/

/-- C6: `canPlay` is symmetric in its two competitor arguments. -/
theorem canPlay_symmetric (a b : String) (history : List Match) :
    canPlay a b history = canPlay b a history :=
  canPlay_comm a b history

/-! ## Claim C9 -/

/-- C9 counterexample: an unknown competitor id and a negative margin both
yield the plain empty list — the same value a valid single-competitor query
with no eligible opponents returns (third conjunct) — not a distinct error. -/
theorem silent_empty_counterexample :
    getEligibleOpponents "ghost" 1 [⟨"a", "a", 0⟩, ⟨"b", "b", 0⟩] [] = [] ∧
    getEligibleOpponents "a" (-1) [⟨"a", "a", 0⟩, ⟨"b", "b", 0⟩] [] = [] ∧
    getEligibleOpponents "a" 1 [⟨"a", "a", 0⟩, ⟨"b", "b", 5⟩] [] = [] := by
  refine ⟨by decide, by decide, by decide⟩

/-- C9 amended: a competitor id absent from the pool, or a negative margin,
makes `getEligibleOpponents` return the empty list, indistinguishable from a
valid query with no eligible opponents; no distinct error kind exists. -/
theorem eligibleOpponents_silent_empty (studentId : String) (margin : Int)
    (students : List Student) (history : List Match) :
    (students.find? (fun s => s.id == studentId) = none →
      getEligibleOpponents studentId margin students history = []) ∧
    (margin < 0 → getEligibleOpponents studentId margin students history = []) := by
  constructor
  · intro h
    unfold getEligibleOpponents
    rw [h]
  · intro h
    unfold getEligibleOpponents
    cases hfind : students.find? (fun s => s.id == studentId) with
    | none => rfl
    | some t =>
      apply List.filter_eq_nil_iff.mpr
      intro o _ hpred
      have h1 := eligiblePred_margin hpred
      have h2 : (0 : Int) ≤ |t.score - o.score| := abs_nonneg _
      linarith

/-- Witness for the amended C9 at concrete inputs. -/
theorem eligibleOpponents_silent_empty_witness :
    ([⟨"a", "a", 0⟩] : List Student).find? (fun s => s.id == "ghost") = none ∧
    getEligibleOpponents "ghost" 1 [⟨"a", "a", 0⟩] [] = [] ∧
    ((-1 : Int) < 0) ∧
    getEligibleOpponents "a" (-1) [⟨"a", "a", 0⟩] [] = [] :=
  ⟨by decide,
   (eligibleOpponents_silent_empty "ghost" 1 [⟨"a", "a", 0⟩] []).1 (by decide),
   by decide,
   (eligibleOpponents_silent_empty "a" (-1) [⟨"a", "a", 0⟩] []).2 (by decide)⟩

/-! ## Claim C5 -/

theorem detailsLe_total : LeTotal detailsLe := by
  intro a b
  unfold detailsLe
  by_cases h : a.scoreDifference = b.scoreDifference
  · rcases Nat.le_total a.matchCount b.matchCount with hmc | hmc <;> simp [h, hmc]
  · have h' : ¬ b.scoreDifference = a.scoreDifference := fun e => h e.symm
    rcases Int.le_total a.scoreDifference b.scoreDifference with hsd | hsd <;>
      simp [h, h', hsd]

theorem detailsLe_trans : LeTrans detailsLe := by
  intro a b c hab hbc
  unfold detailsLe at hab hbc ⊢
  by_cases h1 : a.scoreDifference = b.scoreDifference <;>
    by_cases h2 : b.scoreDifference = c.scoreDifference
  · simp [h1, h2] at hab hbc ⊢
    omega
  · simp [h1, h2] at hab hbc ⊢
    omega
  · have h3 : a.scoreDifference ≠ c.scoreDifference := by
      rw [h2] at h1; exact h1
    simp [h1, h2, h3] at hab hbc ⊢
    omega
  · simp [h1, h2] at hab hbc
    have h3 : a.scoreDifference ≠ c.scoreDifference := by omega
    simp [h3]
    omega

/-- The candidate ordering the spec claims: ascending score difference, then
ascending head-to-head match count, then ascending name (this definition
follows the spec's words, for comparison with the source's `detailsLe`). -/
def specOpponentOrderLe (a b : OpponentDetails) : Bool :=
  if a.scoreDifference = b.scoreDifference then
    if a.matchCount = b.matchCount then
      nameLe a.student.name b.student.name
    else
      decide (a.matchCount ≤ b.matchCount)
  else
    decide (a.scoreDifference ≤ b.scoreDifference)

/-- C5 counterexample: with three equal-score competitors and an empty
history, the detailed opponent list for "t" keeps the pool order
["b", "a"], so it is not ordered by the spec's claimed (score difference,
match count, ascending name) ordering — the source has no name tie-break. -/
theorem opponentOrdering_counterexample :
    ¬ ((getEligibleOpponentsWithDetails "t" 1
          [⟨"t", "t", 0⟩, ⟨"b", "b", 0⟩, ⟨"a", "a", 0⟩] []).Pairwise
        (fun a b => specOpponentOrderLe a b = true)) := by
  decide

/-- C5 amended: the detailed opponent list is sorted by ascending score
difference, then ascending head-to-head match count only (ties keep the
filter order; there is no name tie-break), and `getBestOpponentRecommendation`
is exactly the head of that list, absent when the list is empty. -/
theorem eligibleOpponents_ordering (studentId : String) (margin : Int)
    (students : List Student) (history : List Match) :
    ((getEligibleOpponentsWithDetails studentId margin students history).Pairwise
      (fun a b => detailsLe a b = true)) ∧
    getBestOpponentRecommendation studentId margin students history =
      (getEligibleOpponentsWithDetails studentId margin students history).head?.map
        (fun d => d.student) := by
  constructor
  · unfold getEligibleOpponentsWithDetails
    cases students.find? (fun s => s.id == studentId) with
    | none => simp
    | some t => exact pairwise_sortLe detailsLe_trans detailsLe_total _
  · cases hE : getEligibleOpponentsWithDetails studentId margin students history with
    | nil => simp [getBestOpponentRecommendation, hE]
    | cons d ds => simp [getBestOpponentRecommendation, hE]

/-! ## Helper lemmas: opponent selection returns a member of its input -/

theorem foldl_choice_mem {α : Type} (f : α → α → α)
    (hf : ∀ b c, f b c = b ∨ f b c = c) :
    ∀ (l : List α) (a : α), l.foldl f a ∈ a :: l := by
  intro l
  induction l with
  | nil => intro a; simp
  | cons c cs ih =>
    intro a
    simp only [List.foldl_cons]
    have hmem := ih (f a c)
    rcases List.mem_cons.mp hmem with h | h
    · rw [h]
      rcases hf a c with he | he <;> rw [he]
      · exact List.mem_cons_self _ _
      · exact List.mem_cons_of_mem _ (List.mem_cons_self _ _)
    · exact List.mem_cons_of_mem _ (List.mem_cons_of_mem _ h)

theorem pickSorted_mem {student o : Student} {l : List Student}
    (h : pickSorted student l = some o) : o ∈ l := by
  unfold pickSorted at h
  have hmem : o ∈ sortLe (fun a b =>
      decide (|student.score - a.score| ≤ |student.score - b.score|)) l := by
    cases hs : sortLe (fun a b =>
        decide (|student.score - a.score| ≤ |student.score - b.score|)) l with
    | nil => rw [hs] at h; cases h
    | cons x xs =>
      rw [hs] at h
      simp only [List.head?_cons, Option.some.injEq] at h
      exact h ▸ List.mem_cons_self x xs
  exact mem_sortLe.mp hmem

theorem pickMin_mem {student o : Student} {l : List Student}
    (h : pickMin student l = some o) : o ∈ l := by
  unfold pickMin at h
  cases l with
  | nil => cases h
  | cons first rest =>
    simp only [Option.some.injEq] at h
    have hmem := foldl_choice_mem
      (fun best current =>
        if |student.score - current.score| < |student.score - best.score| then current
        else best)
      (fun b c => by by_cases hc : |student.score - c.score| < |student.score - b.score| <;>
        simp [hc]) rest first
    exact h ▸ hmem

/-! ## Helper lemmas: the greedy pairing loop -/

theorem recommendLoop_cons (pick : Student → List Student → Option Student)
    (students : List Student) (margin : Int) (history : List Match)
    (s : Student) (rest : List Student) (used : List String) :
    recommendLoop pick students margin history (s :: rest) used =
      if used.contains s.id then
        recommendLoop pick students margin history rest used
      else
        match pick s ((getEligibleOpponents s.id margin students history).filter
            fun opponent => !(used.contains opponent.id)) with
        | none => recommendLoop pick students margin history rest used
        | some bestOpponent =>
          if canPlay s.id bestOpponent.id history then
            ⟨s, bestOpponent, |s.score - bestOpponent.score|⟩ ::
            recommendLoop pick students margin history rest
              (s.id :: bestOpponent.id :: used)
          else
            recommendLoop pick students margin history rest used := rfl

theorem recommendLoop_cons_skip {pick : Student → List Student → Option Student}
    {students : List Student} {margin : Int} {history : List Match}
    {s : Student} {rest : List Student} {used : List String}
    (h : used.contains s.id = true) :
    recommendLoop pick students margin history (s :: rest) used =
    recommendLoop pick students margin history rest used := by
  rw [recommendLoop_cons, if_pos h]

theorem recommendLoop_cons_none {pick : Student → List Student → Option Student}
    {students : List Student} {margin : Int} {history : List Match}
    {s : Student} {rest : List Student} {used : List String}
    (h : ¬ used.contains s.id = true)
    (hpk : pick s ((getEligibleOpponents s.id margin students history).filter
        fun opponent => !(used.contains opponent.id)) = none) :
    recommendLoop pick students margin history (s :: rest) used =
    recommendLoop pick students margin history rest used := by
  rw [recommendLoop_cons, if_neg h, hpk]

theorem recommendLoop_cons_noPlay {pick : Student → List Student → Option Student}
    {students : List Student} {margin : Int} {history : List Match}
    {s best : Student} {rest : List Student} {used : List String}
    (h : ¬ used.contains s.id = true)
    (hpk : pick s ((getEligibleOpponents s.id margin students history).filter
        fun opponent => !(used.contains opponent.id)) = some best)
    (hcp : ¬ canPlay s.id best.id history = true) :
    recommendLoop pick students margin history (s :: rest) used =
    recommendLoop pick students margin history rest used := by
  rw [recommendLoop_cons, if_neg h, hpk]
  exact if_neg hcp

theorem recommendLoop_cons_emit {pick : Student → List Student → Option Student}
    {students : List Student} {margin : Int} {history : List Match}
    {s best : Student} {rest : List Student} {used : List String}
    (h : ¬ used.contains s.id = true)
    (hpk : pick s ((getEligibleOpponents s.id margin students history).filter
        fun opponent => !(used.contains opponent.id)) = some best)
    (hcp : canPlay s.id best.id history = true) :
    recommendLoop pick students margin history (s :: rest) used =
      ⟨s, best, |s.score - best.score|⟩ ::
      recommendLoop pick students margin history rest
        (s.id :: best.id :: used) := by
  rw [recommendLoop_cons, if_neg h, hpk]
  exact if_pos hcp

/-- Invariant of `recommendLoop`: the emitted ids are duplicate-free and none
of them is already in `used`, for any visitation order, provided `pick` only
selects members of the available list. -/
theorem recommendLoop_ids_nodup (pick : Student → List Student → Option Student)
    (hpick : ∀ s l o, pick s l = some o → o ∈ l)
    (students : List Student) (margin : Int) (history : List Match) :
    ∀ (order : List Student) (used : List String),
      (recIds (recommendLoop pick students margin history order used)).Nodup ∧
      ∀ i ∈ recIds (recommendLoop pick students margin history order used),
        i ∉ used := by
  intro order
  induction order with
  | nil =>
    intro used
    simp [recommendLoop, recIds]
  | cons s rest ih =>
    intro used
    by_cases hused : used.contains s.id = true
    · rw [recommendLoop_cons_skip hused]
      exact ih used
    · cases hpk : pick s ((getEligibleOpponents s.id margin students history).filter
          fun opponent => !(used.contains opponent.id)) with
      | none =>
        rw [recommendLoop_cons_none hused hpk]
        exact ih used
      | some best =>
        by_cases hcp : canPlay s.id best.id history = true
        · have hbest := List.mem_filter.mp (hpick _ _ _ hpk)
          have hbest_unused : best.id ∉ used := by simpa using hbest.2
          have hne : best.id ≠ s.id := getEligibleOpponents_ne_self hbest.1
          have hs_unused : s.id ∉ used := by simpa using hused
          rcases ih (s.id :: best.id :: used) with ⟨hnd, hnotin⟩
          rw [recommendLoop_cons_emit hused hpk hcp]
          constructor
          · simp only [recIds]
            refine List.nodup_cons.mpr ⟨?_, List.nodup_cons.mpr ⟨?_, hnd⟩⟩
            · intro hmem
              rcases List.mem_cons.mp hmem with h | h
              · exact hne h.symm
              · exact (hnotin _ h) (List.mem_cons_self _ _)
            · intro hmem
              exact (hnotin _ hmem)
                (List.mem_cons_of_mem _ (List.mem_cons_self _ _))
          · intro i hi
            simp only [recIds] at hi
            rcases List.mem_cons.mp hi with rfl | hi'
            · exact hs_unused
            rcases List.mem_cons.mp hi' with rfl | hi''
            · exact hbest_unused
            · intro hmemused
              exact (hnotin _ hi'')
                (List.mem_cons_of_mem _ (List.mem_cons_of_mem _ hmemused))
        · rw [recommendLoop_cons_noPlay hused hpk hcp]
          exact ih used

/-! ## Claim C2 -/

/-- C2: neither `getMatchRecommendations` (for any shuffle outcome) nor
`getOptimizedMatchRecommendations` ever mentions the same competitor id in
more than one pairing (nor twice inside one pairing). -/
theorem generatedRound_ids_distinct (students : List Student) (margin : Int)
    (history : List Match) (shuffled : List Student) :
    (recIds (getMatchRecommendations students margin history shuffled)).Nodup ∧
    (recIds (getOptimizedMatchRecommendations students margin history)).Nodup := by
  constructor
  · unfold getMatchRecommendations
    split
    · simp [recIds]
    · exact (recommendLoop_ids_nodup pickSorted (fun _ _ _ => pickSorted_mem)
        students margin history shuffled []).1
  · unfold getOptimizedMatchRecommendations
    split
    · simp [recIds]
    · exact (recommendLoop_ids_nodup pickMin (fun _ _ _ => pickMin_mem)
        students margin history (sortLe scoreDescLe students) []).1

/-! ## Claim C3 -/

/-- Every pairing emitted by the greedy loop has the recorded score
difference, respects the margin, and passes `canPlay`, provided the pool has
duplicate-free ids and the visitation order only mentions pool members. -/
theorem recommendLoop_pairing_props (pick : Student → List Student → Option Student)
    (hpick : ∀ s l o, pick s l = some o → o ∈ l)
    (students : List Student) (margin : Int) (history : List Match)
    (hnodup : (students.map Student.id).Nodup) :
    ∀ (order : List Student) (used : List String), (∀ s ∈ order, s ∈ students) →
      ∀ p ∈ recommendLoop pick students margin history order used,
        p.scoreDifference = |p.playerA.score - p.playerB.score| ∧
        p.scoreDifference ≤ margin ∧
        canPlay p.playerA.id p.playerB.id history = true := by
  intro order
  induction order with
  | nil =>
    intro used _ p hp
    simp [recommendLoop] at hp
  | cons s rest ih =>
    intro used horder p hp
    have hs_students : s ∈ students := horder s (List.mem_cons_self _ _)
    have horder' : ∀ x ∈ rest, x ∈ students := fun x hx =>
      horder x (List.mem_cons_of_mem _ hx)
    by_cases hused : used.contains s.id = true
    · rw [recommendLoop_cons_skip hused] at hp
      exact ih used horder' p hp
    · cases hpk : pick s ((getEligibleOpponents s.id margin students history).filter
          fun opponent => !(used.contains opponent.id)) with
      | none =>
        rw [recommendLoop_cons_none hused hpk] at hp
        exact ih used horder' p hp
      | some best =>
        by_cases hcp : canPlay s.id best.id history = true
        · rw [recommendLoop_cons_emit hused hpk hcp] at hp
          rcases List.mem_cons.mp hp with rfl | hp'
          · refine ⟨rfl, ?_, hcp⟩
            have hbest := List.mem_filter.mp (hpick _ _ _ hpk)
            rcases mem_getEligibleOpponents.mp hbest.1 with ⟨t, hfind, _, hpred⟩
            have hfind' := find?_eq_of_nodup hnodup hs_students
            rw [hfind] at hfind'
            have ht : t = s := Option.some.inj hfind'
            subst ht
            exact eligiblePred_margin hpred
          · exact ih _ horder' p hp'
        · rw [recommendLoop_cons_noPlay hused hpk hcp] at hp
          exact ih used horder' p hp

/-- C3: every pairing emitted by `getMatchRecommendations` (for any shuffle
outcome drawn from the pool) satisfies
`scoreDifference = |playerA.score - playerB.score|`,
`scoreDifference ≤ margin`, and `canPlay` at emission time. -/
theorem generateRound_pairing_valid (students : List Student) (margin : Int)
    (history : List Match) (shuffled : List Student)
    (hnodup : (students.map Student.id).Nodup)
    (hshuffled : ∀ s ∈ shuffled, s ∈ students) :
    ∀ p ∈ getMatchRecommendations students margin history shuffled,
      p.scoreDifference = |p.playerA.score - p.playerB.score| ∧
      p.scoreDifference ≤ margin ∧
      canPlay p.playerA.id p.playerB.id history = true := by
  unfold getMatchRecommendations
  split
  · intro p hp
    simp at hp
  · exact recommendLoop_pairing_props pickSorted (fun _ _ _ => pickSorted_mem)
      students margin history hnodup shuffled [] hshuffled

/-- Witness for C3: the pairing emitted at a concrete two-student pool
satisfies all three claimed properties. -/
theorem generateRound_pairing_valid_witness :
    (([⟨"a", "a", 0⟩, ⟨"b", "b", 1⟩] : List Student).map Student.id).Nodup ∧
    (⟨⟨"a", "a", 0⟩, ⟨"b", "b", 1⟩, 1⟩ : MatchRecommendation) ∈
      getMatchRecommendations [⟨"a", "a", 0⟩, ⟨"b", "b", 1⟩] 1 []
        [⟨"a", "a", 0⟩, ⟨"b", "b", 1⟩] ∧
    (⟨⟨"a", "a", 0⟩, ⟨"b", "b", 1⟩, 1⟩ : MatchRecommendation).scoreDifference =
      |(⟨⟨"a", "a", 0⟩, ⟨"b", "b", 1⟩, 1⟩ : MatchRecommendation).playerA.score -
        (⟨⟨"a", "a", 0⟩, ⟨"b", "b", 1⟩, 1⟩ : MatchRecommendation).playerB.score| ∧
    (⟨⟨"a", "a", 0⟩, ⟨"b", "b", 1⟩, 1⟩ : MatchRecommendation).scoreDifference ≤ 1 ∧
    canPlay (⟨⟨"a", "a", 0⟩, ⟨"b", "b", 1⟩, 1⟩ : MatchRecommendation).playerA.id
      (⟨⟨"a", "a", 0⟩, ⟨"b", "b", 1⟩, 1⟩ : MatchRecommendation).playerB.id [] = true :=
  ⟨by decide, by decide,
   generateRound_pairing_valid [⟨"a", "a", 0⟩, ⟨"b", "b", 1⟩] 1 []
     [⟨"a", "a", 0⟩, ⟨"b", "b", 1⟩] (by decide) (by decide)
     ⟨⟨"a", "a", 0⟩, ⟨"b", "b", 1⟩, 1⟩ (by decide)⟩

/-! ## Helper lemmas: recommendation statistics -/

theorem foldl_add_map {α : Type} (f : α → Int) :
    ∀ (l : List α) (c : Int), l.foldl (fun t o => t + f o) c = c + (l.map f).sum := by
  intro l
  induction l with
  | nil => intro c; simp
  | cons x xs ih =>
    intro c
    simp only [List.foldl_cons, List.map_cons, List.sum_cons, ih]
    ring

/-- The three accumulating counters of the `getMatchRecommendationStats` loop
are plain sums over the pool. -/
theorem statsStep_foldl_sums (margin : Int) (students : List Student)
    (history : List Match) :
    ∀ (l : List Student) (acc : StatsAcc),
      (l.foldl (statsStep margin students history) acc).totalPossibleMatches =
        acc.totalPossibleMatches + (l.map fun s =>
          (getEligibleOpponents s.id margin students history).length).sum ∧
      (l.foldl (statsStep margin students history) acc).totalScoreDifference =
        acc.totalScoreDifference + (l.map fun s =>
          ((getEligibleOpponents s.id margin students history).map fun o =>
            |s.score - o.score|).sum).sum ∧
      (l.foldl (statsStep margin students history) acc).matchCount =
        acc.matchCount + (l.map fun s =>
          (getEligibleOpponents s.id margin students history).length).sum := by
  intro l
  induction l with
  | nil => intro acc; simp
  | cons s rest ih =>
    intro acc
    simp only [List.foldl_cons, List.map_cons, List.sum_cons]
    rcases ih (statsStep margin students history acc s) with ⟨h1, h2, h3⟩
    rw [h1, h2, h3]
    unfold statsStep
    by_cases he : (getEligibleOpponents s.id margin students history).length > 0
    · simp only [he, if_pos, if_true]
      refine ⟨by omega, ?_, by omega⟩
      rw [foldl_add_map]
      ring_nf
      omega
    · have hnil : getEligibleOpponents s.id margin students history = [] :=
        List.length_eq_zero.mp (by omega)
      simp [he, hnil]

/-- A singleton pool has no eligible opponents (the self check removes the
only candidate). -/
theorem getEligibleOpponents_single (s : Student) (margin : Int)
    (history : List Match) :
    getEligibleOpponents s.id margin [s] history = [] := by
  unfold getEligibleOpponents
  rw [List.find?_cons_of_pos _ (by simp)]
  simp [eligiblePred]

/-- Membership in `getEligibleOpponents` for a pool member under unique ids:
the target found is the member itself. -/
theorem mem_getEligibleOpponents_of_nodup {c o : Student} {margin : Int}
    {students : List Student} {history : List Match}
    (hnodup : (students.map Student.id).Nodup) (hc : c ∈ students) :
    o ∈ getEligibleOpponents c.id margin students history ↔
      (o ∈ students ∧ eligiblePred c.id margin c history o = true) := by
  have hfind := find?_eq_of_nodup hnodup hc
  constructor
  · intro h
    rcases mem_getEligibleOpponents.mp h with ⟨t, hfind', hmem, hpred⟩
    rw [hfind'] at hfind
    have ht : t = c := Option.some.inj hfind
    subst ht
    exact ⟨hmem, hpred⟩
  · intro h
    exact mem_getEligibleOpponents.mpr ⟨c, hfind, h.1, h.2⟩

/-- The eligibility filter is symmetric between two pool members. -/
theorem eligiblePred_comm (c o : Student) (margin : Int) (history : List Match) :
    eligiblePred c.id margin c history o = eligiblePred o.id margin o history c := by
  unfold eligiblePred
  have h1 : (o.id == c.id) = (c.id == o.id) := by
    by_cases h : o.id = c.id
    · simp [h]
    · have h' : ¬ c.id = o.id := fun e => h e.symm
      simp [h, h']
  have h2 : isScoreWithinMargin c.score o.score margin =
      isScoreWithinMargin o.score c.score margin := by
    unfold isScoreWithinMargin
    rw [abs_sub_comm]
  rw [h1, h2, canPlay_comm c.id o.id history, getHeadToHead_comm c.id o.id history,
    canHaveBestOfThreeRematch_comm c.id o.id history]

/-- With fewer than two students both per-student sums vanish. -/
theorem sum_elig_small (students : List Student) (margin : Int)
    (history : List Match) (h : students.length < 2) :
    (students.map fun s =>
      (getEligibleOpponents s.id margin students history).length).sum = 0 ∧
    (students.map fun s =>
      ((getEligibleOpponents s.id margin students history).map fun o =>
        |s.score - o.score|).sum).sum = 0 := by
  match students with
  | [] => simp
  | [s] => simp [getEligibleOpponents_single]
  | a :: b :: t => simp at h; omega

/-! ## Claim C7 -/

/-- C7: `getMatchRecommendationStats` returns all-zero statistics on an empty
pool; `possibleMatches` is the sum of the eligible-opponent-set sizes over the
pool; `averageScoreDifference` is the mean score difference over all directed
(student, eligible opponent) pairs, 0 when there are none; and (the double
counting) eligibility is symmetric between pool members, so each unordered
pair contributes once from each side. -/
theorem pairingStats_characterization (students : List Student) (margin : Int)
    (history : List Match) (hnodup : (students.map Student.id).Nodup) :
    getMatchRecommendationStats [] margin history = ⟨0, 0, 0, 0⟩ ∧
    (getMatchRecommendationStats students margin history).possibleMatches =
      (students.map fun s =>
        (getEligibleOpponents s.id margin students history).length).sum ∧
    (getMatchRecommendationStats students margin history).averageScoreDifference =
      (if 0 < (students.map fun s =>
            (getEligibleOpponents s.id margin students history).length).sum then
        ((((students.map fun s =>
            ((getEligibleOpponents s.id margin students history).map fun o =>
              |s.score - o.score|).sum).sum : Int)) : Rat) /
        ((((students.map fun s =>
            (getEligibleOpponents s.id margin students history).length).sum : Nat)) : Rat)
      else 0) ∧
    (∀ c ∈ students, ∀ o ∈ students,
      (o ∈ getEligibleOpponents c.id margin students history ↔
       c ∈ getEligibleOpponents o.id margin students history)) := by
  refine ⟨rfl, ?_, ?_, ?_⟩
  · unfold getMatchRecommendationStats
    split
    · next h => exact ((sum_elig_small students margin history h).1).symm
    · have h := (statsStep_foldl_sums margin students history students ⟨0, 0, 0, 0⟩).1
      simpa using h
  · unfold getMatchRecommendationStats
    split
    · next h =>
      rw [(sum_elig_small students margin history h).1]
      simp
    · rcases statsStep_foldl_sums margin students history students ⟨0, 0, 0, 0⟩
        with ⟨h1, h2, h3⟩
      dsimp only at h2 h3 ⊢
      rw [h2, h3]
      simp only [Nat.zero_add, Int.zero_add, zero_add, gt_iff_lt]
  · intro c hc o ho
    rw [mem_getEligibleOpponents_of_nodup hnodup hc,
      mem_getEligibleOpponents_of_nodup hnodup ho, eligiblePred_comm]
    simp [hc, ho]

/-- Witness for C7 at a concrete two-student pool. -/
theorem pairingStats_witness :
    (([⟨"a", "a", 0⟩, ⟨"b", "b", 1⟩] : List Student).map Student.id).Nodup ∧
    (getMatchRecommendationStats [⟨"a", "a", 0⟩, ⟨"b", "b", 1⟩] 1 []).possibleMatches =
      (([⟨"a", "a", 0⟩, ⟨"b", "b", 1⟩] : List Student).map fun s =>
        (getEligibleOpponents s.id 1 [⟨"a", "a", 0⟩, ⟨"b", "b", 1⟩] []).length).sum :=
  ⟨by decide,
   (pairingStats_characterization [⟨"a", "a", 0⟩, ⟨"b", "b", 1⟩] 1 [] (by decide)).2.1⟩

/-! ## Helper lemmas: the leaderboard comparator is a total preorder -/

theorem nameLe_total (a b : String) : nameLe a b = true ∨ nameLe b a = true := by
  unfold nameLe
  rcases le_total a.data b.data with h | h
  · exact Or.inl (decide_eq_true h)
  · exact Or.inr (decide_eq_true h)

theorem nameLe_trans {a b c : String} (hab : nameLe a b = true)
    (hbc : nameLe b c = true) : nameLe a c = true :=
  decide_eq_true (le_trans (of_decide_eq_true hab) (of_decide_eq_true hbc))

/-- Totality of one descending-key lexicographic step. -/
theorem descStep_total {α β : Type} [LinearOrder β] (k : α → β) (rest : α → α → Bool)
    (hrest : ∀ a b, rest a b = true ∨ rest b a = true) (a b : α) :
    (if k a = k b then rest a b else decide (k b ≤ k a)) = true ∨
    (if k b = k a then rest b a else decide (k a ≤ k b)) = true := by
  by_cases h : k a = k b
  · rw [if_pos h, if_pos h.symm]
    exact hrest a b
  · have h' : ¬ k b = k a := fun e => h e.symm
    rw [if_neg h, if_neg h']
    rcases le_total (k b) (k a) with hle | hle
    · exact Or.inl (decide_eq_true hle)
    · exact Or.inr (decide_eq_true hle)

/-- Transitivity of one descending-key lexicographic step. -/
theorem descStep_trans {α β : Type} [LinearOrder β] (k : α → β) (rest : α → α → Bool)
    (hrest : ∀ a b c, rest a b = true → rest b c = true → rest a c = true)
    (a b c : α)
    (hab : (if k a = k b then rest a b else decide (k b ≤ k a)) = true)
    (hbc : (if k b = k c then rest b c else decide (k c ≤ k b)) = true) :
    (if k a = k c then rest a c else decide (k c ≤ k a)) = true := by
  by_cases h1 : k a = k b <;> by_cases h2 : k b = k c
  · rw [if_pos h1] at hab
    rw [if_pos h2] at hbc
    rw [if_pos (h1.trans h2)]
    exact hrest a b c hab hbc
  · rw [if_pos h1] at hab
    rw [if_neg h2] at hbc
    have h3 : ¬ k a = k c := fun e => h2 (h1.symm.trans e)
    rw [if_neg h3]
    exact decide_eq_true (h1.symm ▸ of_decide_eq_true hbc)
  · rw [if_neg h1] at hab
    rw [if_pos h2] at hbc
    have h3 : ¬ k a = k c := fun e => h1 (e.trans h2.symm)
    rw [if_neg h3]
    exact decide_eq_true (h2 ▸ of_decide_eq_true hab)
  · rw [if_neg h1] at hab
    rw [if_neg h2] at hbc
    have hba := of_decide_eq_true hab
    have hcb := of_decide_eq_true hbc
    have h3 : ¬ k a = k c := by
      intro e
      exact h2 (le_antisymm (e ▸ hba) hcb)
    rw [if_neg h3]
    exact decide_eq_true (le_trans hcb hba)

theorem leaderboardLe_total : LeTotal leaderboardLe := by
  intro a b
  unfold leaderboardLe
  exact descStep_total (fun e => e.student.score)
    (fun a b =>
      if a.winRate = b.winRate then
        if a.totalMatches = b.totalMatches then
          nameLe a.student.name b.student.name
        else decide (b.totalMatches ≤ a.totalMatches)
      else decide (b.winRate ≤ a.winRate))
    (fun a b => descStep_total (fun e => e.winRate)
      (fun a b =>
        if a.totalMatches = b.totalMatches then
          nameLe a.student.name b.student.name
        else decide (b.totalMatches ≤ a.totalMatches))
      (fun a b => descStep_total (fun e => e.totalMatches)
        (fun a b => nameLe a.student.name b.student.name)
        (fun a b => nameLe_total a.student.name b.student.name) a b) a b) a b

theorem leaderboardLe_trans : LeTrans leaderboardLe := by
  intro a b c hab hbc
  unfold leaderboardLe at hab hbc ⊢
  exact descStep_trans (fun e => e.student.score)
    (fun a b =>
      if a.winRate = b.winRate then
        if a.totalMatches = b.totalMatches then
          nameLe a.student.name b.student.name
        else decide (b.totalMatches ≤ a.totalMatches)
      else decide (b.winRate ≤ a.winRate))
    (fun a b c hab hbc => descStep_trans (fun e => e.winRate)
      (fun a b =>
        if a.totalMatches = b.totalMatches then
          nameLe a.student.name b.student.name
        else decide (b.totalMatches ≤ a.totalMatches))
      (fun a b c hab hbc => descStep_trans (fun e => e.totalMatches)
        (fun a b => nameLe a.student.name b.student.name)
        (fun a b c hab hbc =>
          @nameLe_trans a.student.name b.student.name c.student.name hab hbc)
        a b c hab hbc)
      a b c hab hbc)
    a b c hab hbc

/-! ## Claim C8 -/

/-- C8: `getLeaderboard` is a permutation of the per-student entries, sorted
by descending score, then descending win rate, then descending total matches,
then ascending name (the comparator `leaderboardLe`), and every entry's
`winRate` is `wins / totalMatches * 100`, 0 when `totalMatches = 0`. -/
theorem rank_characterization (students : List Student) (history : List Match) :
    ((getLeaderboard students history).Pairwise fun a b => leaderboardLe a b = true) ∧
    (getLeaderboard students history).Perm
      (students.map (leaderboardEntryOf history)) ∧
    ∀ e ∈ getLeaderboard students history,
      e.winRate =
        if 0 < e.totalMatches then ((e.wins : Rat) / (e.totalMatches : Rat)) * 100
        else 0 := by
  refine ⟨pairwise_sortLe leaderboardLe_trans leaderboardLe_total _,
    sortLe_perm _ _, ?_⟩
  intro e he
  have he' : e ∈ students.map (leaderboardEntryOf history) :=
    (sortLe_perm _ _).mem_iff.mp he
  rcases List.mem_map.mp he' with ⟨s, _, rfl⟩
  unfold leaderboardEntryOf calculateStudentStats
  dsimp only

/-- Witness for C8: the top entry of a concrete leaderboard satisfies the
win-rate formula. -/
theorem rank_characterization_witness :
    (⟨⟨"b", "b", 1⟩, 0, 0, 0, 0⟩ : LeaderboardEntry) ∈
      getLeaderboard [⟨"a", "a", 0⟩, ⟨"b", "b", 1⟩] [] ∧
    (⟨⟨"b", "b", 1⟩, 0, 0, 0, 0⟩ : LeaderboardEntry).winRate =
      (if 0 < (⟨⟨"b", "b", 1⟩, 0, 0, 0, 0⟩ : LeaderboardEntry).totalMatches then
        (((⟨⟨"b", "b", 1⟩, 0, 0, 0, 0⟩ : LeaderboardEntry).wins : Rat) /
          ((⟨⟨"b", "b", 1⟩, 0, 0, 0, 0⟩ : LeaderboardEntry).totalMatches : Rat)) * 100
      else 0) :=
  ⟨by decide,
   (rank_characterization [⟨"a", "a", 0⟩, ⟨"b", "b", 1⟩] []).2.2
     ⟨⟨"b", "b", 1⟩, 0, 0, 0, 0⟩ (by decide)⟩

/-! ## Claim C10 -/

/-- The two counters of the `calculateStudentStats` fold are `countP` values. -/
theorem stats_counts_foldl (studentId : String) :
    ∀ (history : List Match) (c : Nat × Nat),
      history.foldl (fun (c : Nat × Nat) m =>
        if m.playerA == studentId || m.playerB == studentId then
          if m.winner == studentId then (c.1 + 1, c.2) else (c.1, c.2 + 1)
        else c) c =
      (c.1 + history.countP (fun m =>
          (m.playerA == studentId || m.playerB == studentId) &&
          (m.winner == studentId)),
       c.2 + history.countP (fun m =>
          (m.playerA == studentId || m.playerB == studentId) &&
          !(m.winner == studentId))) := by
  intro history
  induction history with
  | nil => intro c; simp
  | cons m rest ih =>
    intro c
    simp only [List.foldl_cons, List.countP_cons, ih]
    by_cases hi : (m.playerA == studentId || m.playerB == studentId) = true
    · by_cases hw : (m.winner == studentId) = true
      · simp only [hi, hw, if_pos, if_true, Bool.and_self, Bool.not_true,
          Bool.and_false, if_false]
        refine Prod.ext ?_ ?_ <;> simp [hi, hw] <;> omega
      · have hw' : (m.winner == studentId) = false := by
          simpa using hw
        refine Prod.ext ?_ ?_ <;> simp [hi, hw'] <;> omega
    · have hi' : (m.playerA == studentId || m.playerB == studentId) = false := by
        simpa using hi
      refine Prod.ext ?_ ?_ <;> simp [hi']

/-- Splitting a count over the winner test. -/
theorem countP_involved_split (studentId : String) (history : List Match) :
    history.countP (fun m =>
        (m.playerA == studentId || m.playerB == studentId) &&
        (m.winner == studentId)) +
    history.countP (fun m =>
        (m.playerA == studentId || m.playerB == studentId) &&
        !(m.winner == studentId)) =
    history.countP (fun m => m.playerA == studentId || m.playerB == studentId) := by
  induction history with
  | nil => simp
  | cons m rest ih =>
    simp only [List.countP_cons]
    by_cases hi : (m.playerA == studentId || m.playerB == studentId) = true
    · by_cases hw : (m.winner == studentId) = true
      · simp [hi, hw]
        omega
      · have hw' : (m.winner == studentId) = false := by simpa using hw
        simp [hi, hw']
        omega
    · have hi' : (m.playerA == studentId || m.playerB == studentId) = false := by
        simpa using hi
      simp [hi']
      omega

/-- C10: for every student id, `wins` counts the records where the student is
listed and is the winner, `losses` counts the records where the student is
listed and is not the winner (so a malformed record whose winner is neither
listed player is a loss for both listed players), and
`wins + losses = totalMatches` = the number of records listing the student. -/
theorem studentStats_counts (studentId : String) (history : List Match) :
    (calculateStudentStats studentId history).wins =
      history.countP (fun m =>
        (m.playerA == studentId || m.playerB == studentId) &&
        (m.winner == studentId)) ∧
    (calculateStudentStats studentId history).losses =
      history.countP (fun m =>
        (m.playerA == studentId || m.playerB == studentId) &&
        !(m.winner == studentId)) ∧
    (calculateStudentStats studentId history).totalMatches =
      history.countP (fun m => m.playerA == studentId || m.playerB == studentId) ∧
    (calculateStudentStats studentId history).wins +
      (calculateStudentStats studentId history).losses =
      (calculateStudentStats studentId history).totalMatches ∧
    ∀ m : Match, m.winner ≠ m.playerA → m.winner ≠ m.playerB →
      (calculateStudentStats m.playerA [m]).losses = 1 ∧
      (calculateStudentStats m.playerB [m]).losses = 1 := by
  unfold calculateStudentStats
  rw [stats_counts_foldl]
  dsimp only
  refine ⟨by omega, by omega, ?_, by omega, ?_⟩
  · simp only [Nat.zero_add]
    exact countP_involved_split studentId history
  · intro m hA hB
    have hA' : (m.winner == m.playerA) = false := beq_eq_false_iff_ne.mpr hA
    have hB' : (m.winner == m.playerB) = false := beq_eq_false_iff_ne.mpr hB
    constructor
    · rw [stats_counts_foldl]
      simp [List.countP_cons, hA']
    · rw [stats_counts_foldl]
      simp [List.countP_cons, hB']

/-- Witness for C10's malformed-record clause at a concrete record whose
winner is neither listed player. -/
theorem studentStats_counts_witness :
    (("z" : String) ≠ "a") ∧ (("z" : String) ≠ "b") ∧
    (calculateStudentStats "a" [⟨"1", "a", "b", "z", "y", 0⟩]).losses = 1 ∧
    (calculateStudentStats "b" [⟨"1", "a", "b", "z", "y", 0⟩]).losses = 1 := by
  refine ⟨by decide, by decide, ?_, ?_⟩
  · exact ((studentStats_counts "x" []).2.2.2.2 ⟨"1", "a", "b", "z", "y", 0⟩
      (by decide) (by decide)).1
  · exact ((studentStats_counts "x" []).2.2.2.2 ⟨"1", "a", "b", "z", "y", 0⟩
      (by decide) (by decide)).2

end SwissDraw
